import Mathlib

/-!
# Verification of the xv6 buffer cache (`kernel/bio.c`)

Shallow embedding of the sharded buffer cache: `binit`, `bget`, `bread`,
`bwrite`, `brelse`, `bpin`, `bunpin` and the `hash` function, modelled as pure
functions on an explicit cache state.  Machine integers (`uint`) are modelled
as `Nat` with explicit `% 2^32` where C overflow can occur; the `uint → int`
argument conversion performed when calling `hash` is modelled explicitly.

The intrusive doubly-linked sentinel lists of the C code are modelled as one
list of buffer indices per bucket (front of the Lean list = `head.next`).
Unlinking a buffer via its `prev`/`next` pointers removes it from the unique
list that physically contains it, which the embedding renders as erasing the
index from every bucket list.  Bucket spinlock operations and the sleep-lock
acquisition performed by `bget` are recorded in an event trace so that the
lock discipline can be stated; `brelse`/`bpin`/`bunpin` wrap their whole body
in one acquire/release pair of the owning bucket lock, which frames the body
and is not traced.
-/

namespace Bio

/-- One `struct buf`: identity, validity, reference count, release timestamp
(`lastuse`), sleep-lock state (held by the modelled caller) and the block
content (abstracted to a single `Nat`). -/
structure Buf where
  dev : Nat
  blockno : Nat
  valid : Bool
  refcnt : Nat
  lastuse : Nat
  locked : Bool
  data : Nat
deriving DecidableEq, Repr, Inhabited

/-- The cache: the fixed buffer array (`bcache.buf`) and, for each bucket, the
list of indices of the buffers currently linked into that bucket's list
(`bcache.head[i]`, front = `head[i].next`, back = `head[i].prev`). -/
structure BCache where
  bufs : List Buf
  buckets : List (List Nat)
deriving DecidableEq, Repr, Inhabited

/-- C conversion of a 32-bit unsigned value to a 32-bit signed `int`
(two's complement wrap-around, as on the RISC-V target). -/
def toInt32 (x : Nat) : Int :=
  if x % 2 ^ 32 < 2 ^ 31 then ((x % 2 ^ 32 : Nat) : Int)
  else ((x % 2 ^ 32 : Nat) : Int) - 2 ^ 32

/-- C99 `%` on `int`: remainder of division truncated toward zero
(the result takes the sign of the dividend). -/
def cMod (a b : Int) : Int :=
  if 0 ≤ a then a % b else -((-a) % b)

/-- `int hash(int blockno) { return blockno % NBUCKET; }` applied to a `uint`
argument: the argument is first converted to `int`. `nbucket` is the constant
`NBUCKET` (its numeric value comes from `param.h`, which is not part of the
cache source; it is kept as a parameter). -/
def hash (nbucket : Nat) (blockno : Nat) : Int :=
  cMod (toInt32 blockno) (nbucket : Int)

/-- The bucket-array index actually used to subscript `bcache.bktlock` and
`bcache.head` (meaningful only when `hash` is nonnegative, i.e. when the
block number is representable as a nonnegative `int`). -/
def hashN (nbucket : Nat) (blockno : Nat) : Nat :=
  (hash nbucket blockno).toNat

/-- Update buffer `i` of the cache in place. -/
def updateBuf (st : BCache) (i : Nat) (f : Buf → Buf) : BCache :=
  { st with bufs := st.bufs.set i (f (st.bufs.getD i default)) }

/-- Buffer `i` of the cache (`&bcache.buf[i]`). -/
def bufAt (st : BCache) (i : Nat) : Buf :=
  st.bufs.getD i default

/-- The list splice of `bget`'s eviction path: unlink `cozybuf` from the list
its `prev`/`next` pointers put it in (erase `idx` from every bucket list —
the pointers place a buffer in exactly one list), then push it onto the front
of bucket `home`'s list. -/
def relocateBuckets (bks : List (List Nat)) (home idx : Nat) : List (List Nat) :=
  let b1 := bks.map (fun l => l.erase idx)
  b1.set home (idx :: b1.getD home [])

/-- `b->dev == dev && b->blockno == blockno`. -/
def bufMatch (b : Buf) (dev blockno : Nat) : Bool :=
  b.dev == dev && b.blockno == blockno

/-- The cached-block scan of `bget`: walk a bucket's list from `head.next`
forward and return the first index whose buffer matches `(dev, blockno)`. -/
def findHit (bufs : List Buf) (idxs : List Nat) (dev blockno : Nat) : Option Nat :=
  idxs.find? (fun j => bufMatch (bufs.getD j default) dev blockno)

/-- `memset(&maxtick, 1, sizeof maxtick)` on a 4-byte `uint`: every byte is
`0x01`, so `maxtick` starts at `0x01010101 = 16843009` (not `UINT_MAX`). -/
def maxtickInit : Nat := 16843009

/-- One iteration of the reclamation scan:
`if (b->refcnt == 0 && b->lastuse < maxtick) { maxtick = b->lastuse; cozybuf = b; }`.
The accumulator is `(cozybuf, maxtick, ischanged)`. -/
def scanStep (bufs : List Buf) (acc : Option Nat × Nat × Bool) (j : Nat) :
    Option Nat × Nat × Bool :=
  let b := bufs.getD j default
  if b.refcnt = 0 ∧ b.lastuse < acc.2.1 then (some j, b.lastuse, true) else acc

/-- The reclamation scan of one bucket list.  The C loops walk the list
backwards (`head.prev` direction), so callers pass the reversed list. -/
def scanBucket (bufs : List Buf) (idxs : List Nat) (cozy : Option Nat) (mt : Nat) :
    Option Nat × Nat × Bool :=
  idxs.foldl (scanStep bufs) (cozy, mt, false)

/-- Lock/suspension events emitted by `bget`: acquire/release of the bucket
spinlock `bcache.bktlock[i]`, and `acquiresleep` on buffer `i`'s sleep-lock
(the only suspend point). -/
inductive Ev where
  | acq (i : Nat)
  | rel (i : Nat)
  | sleepAcq (i : Nat)
deriving DecidableEq, Repr

/-- The `eviction:` loop of `bget`: for each bucket `i ≠ lockid`, acquire its
lock, continue the reclamation scan through its list, and either retain the
lock (candidate improved: release the previously retained bucket, if any) or
release it at once.  The accumulator is `(cozybuf, maxtick, bktid, trace)`. -/
def evictLoop (st : BCache) (lockid : Nat) :
    List Nat → Option Nat × Nat × Nat × List Ev → Option Nat × Nat × Nat × List Ev
  | [], acc => acc
  | i :: rest, (cozy, mt, bktid, evs) =>
    if i = lockid then
      evictLoop st lockid rest (cozy, mt, bktid, evs)
    else
      match scanBucket st.bufs ((st.buckets.getD i []).reverse) cozy mt with
      | (cozy2, mt2, changed) =>
        if changed then
          evictLoop st lockid rest (cozy2, mt2, i,
            evs ++ [Ev.acq i] ++ (if bktid = lockid then [] else [Ev.rel bktid]))
        else
          evictLoop st lockid rest (cozy2, mt2, bktid, evs ++ [Ev.acq i, Ev.rel i])

/-- `bget(uint dev, uint blockno)`.  Returns `some (st', idx)` for a normal
return of buffer `idx` (sleep-lock held), `none` for `panic("bget: no
buffers")`, paired with the trace of lock events of the whole execution. -/
def bget (st : BCache) (dev blockno : Nat) : Option (BCache × Nat) × List Ev :=
  let lockid := hashN st.buckets.length blockno
  match findHit st.bufs (st.buckets.getD lockid []) dev blockno with
  | some idx =>
    -- cached: b->refcnt++; release; acquiresleep
    let st1 := updateBuf st idx (fun b => { b with refcnt := (b.refcnt + 1) % 2 ^ 32 })
    let st2 := updateBuf st1 idx (fun b => { b with locked := true })
    (some (st2, idx), [Ev.acq lockid, Ev.rel lockid, Ev.sleepAcq idx])
  | none =>
    match scanBucket st.bufs ((st.buckets.getD lockid []).reverse) none maxtickInit with
    | (some idx, _, _) =>
      -- local candidate: reassign in place
      let st1 := updateBuf st idx (fun b =>
        { b with dev := dev, blockno := blockno, valid := false, refcnt := 1, locked := true })
      (some (st1, idx), [Ev.acq lockid, Ev.rel lockid, Ev.sleepAcq idx])
    | (none, mt, _) =>
      -- eviction: release home, scan the other buckets
      match evictLoop st lockid (List.range st.buckets.length)
          (none, mt, lockid, [Ev.acq lockid, Ev.rel lockid]) with
      | (cozy, _, bktid, evs) =>
        -- re-acquire home and re-check for a concurrent admission
        match findHit st.bufs (st.buckets.getD lockid []) dev blockno with
        | some idx =>
          let st1 := updateBuf st idx (fun b => { b with refcnt := (b.refcnt + 1) % 2 ^ 32 })
          let st2 := updateBuf st1 idx (fun b => { b with locked := true })
          (some (st2, idx),
            evs ++ [Ev.acq lockid, Ev.rel lockid]
                ++ (if bktid = lockid then [] else [Ev.rel bktid]) ++ [Ev.sleepAcq idx])
        | none =>
          match cozy with
          | none =>
            -- panic("bget: no buffers")
            (none, evs ++ [Ev.acq lockid, Ev.rel lockid]
                       ++ (if bktid = lockid then [] else [Ev.rel bktid]))
          | some idx =>
            -- unlink the candidate from its list, push it onto home's front
            let st1 := { st with buckets := relocateBuckets st.buckets lockid idx }
            let st2 := updateBuf st1 idx (fun b =>
              { b with dev := dev, blockno := blockno, valid := false, refcnt := 1, locked := true })
            (some (st2, idx),
              evs ++ [Ev.acq lockid, Ev.rel lockid, Ev.rel bktid, Ev.sleepAcq idx])

/-- `bread(uint dev, uint blockno)`: `bget`, then transfer the block in from
the disk (modelled as `disk : dev → blockno → content`) if `!b->valid`.  The
`Bool` in the result records whether `virtio_disk_rw(b, 0)` was invoked. -/
def bread (disk : Nat → Nat → Nat) (st : BCache) (dev blockno : Nat) :
    Option (BCache × Nat × Bool) × List Ev :=
  match bget st dev blockno with
  | (none, evs) => (none, evs)
  | (some (st1, idx), evs) =>
    if (st1.bufs.getD idx default).valid then (some (st1, idx, false), evs)
    else
      let st2 := updateBuf st1 idx (fun b => { b with data := disk dev blockno, valid := true })
      (some (st2, idx, true), evs)

/-- `bwrite(struct buf *b)`: `panic("bwrite")` (`none`) unless the caller
holds the sleep-lock; otherwise `virtio_disk_rw(b, 1)` writes the current
content to the device.  The result returns the (unchanged) state together
with the `(dev, blockno, data)` of the transfer-out operation. -/
def bwrite (st : BCache) (i : Nat) : Option (BCache × (Nat × Nat × Nat)) :=
  if (st.bufs.getD i default).locked = false then none
  else some (st, ((st.bufs.getD i default).dev, (st.bufs.getD i default).blockno,
                  (st.bufs.getD i default).data))

/-- `b->refcnt--` on a `uint`: decrement with wrap-around at 0 (for counts
in the `uint` range this agrees with `(r + (2^32 - 1)) % 2^32`, see
`decWrap_eq_mod`). -/
def decWrap (r : Nat) : Nat := if r = 0 then 2 ^ 32 - 1 else r - 1

/-- `brelse(struct buf *b)` with the current value of `ticks`:
`panic("brelse")` (`none`) unless the caller holds the sleep-lock; otherwise
release it, decrement `refcnt` (a `uint`) and, if it became 0, stamp
`lastuse = ticks`. -/
def brelse (st : BCache) (i : Nat) (ticks : Nat) : Option BCache :=
  if (st.bufs.getD i default).locked = false then none
  else
    let st1 := updateBuf st i (fun b => { b with locked := false })
    let st2 := updateBuf st1 i (fun b => { b with refcnt := decWrap b.refcnt })
    some (if (st2.bufs.getD i default).refcnt = 0 then
            updateBuf st2 i (fun b => { b with lastuse := ticks })
          else st2)

/-- `bpin(struct buf *b)`: `b->refcnt++` under the owning bucket lock. -/
def bpin (st : BCache) (i : Nat) : BCache :=
  updateBuf st i (fun b => { b with refcnt := (b.refcnt + 1) % 2 ^ 32 })

/-- `bunpin(struct buf *b)`: `b->refcnt--` under the owning bucket lock
(no `lastuse` stamp). -/
def bunpin (st : BCache) (i : Nat) : BCache :=
  updateBuf st i (fun b => { b with refcnt := decWrap b.refcnt })

/-- `binit()`: all fields zeroed (C globals), every buffer pushed onto the
front of bucket 0's list in array order, so bucket 0 finally holds
`[nbuf-1, …, 1, 0]` and every other bucket is empty. -/
def binit (nbuf nbucket : Nat) : BCache :=
  { bufs := List.replicate nbuf
      { dev := 0, blockno := 0, valid := false, refcnt := 0, lastuse := 0,
        locked := false, data := 0 },
    buckets := (List.range nbucket).map
      (fun i => if i = 0 then (List.range nbuf).reverse else []) }

/-- Replay a lock-event trace: fails (`none`) on acquiring a lock already
held, acquiring a third bucket lock, releasing a lock not held, or reaching
the suspend point `acquiresleep` with any bucket lock still held. -/
def runHeld : List Nat → List Ev → Option (List Nat)
  | held, [] => some held
  | held, Ev.acq i :: rest =>
    if i ∈ held ∨ 2 ≤ held.length then none else runHeld (i :: held) rest
  | held, Ev.rel i :: rest =>
    if i ∈ held then runHeld (held.erase i) rest else none
  | held, Ev.sleepAcq _ :: rest =>
    if held = [] then runHeld held rest else none

/-- A trace obeys the lock discipline: at most two bucket locks held at any
instant, locks released only when held, and zero bucket locks held at every
`acquiresleep`. -/
def lockOk (evs : List Ev) : Bool :=
  (runHeld [] evs).isSome

/-- Number of occurrences of buffer index `j` across all bucket lists. -/
def bucketCount (st : BCache) (j : Nat) : Nat :=
  (st.buckets.map (fun l => l.count j)).sum

/-- Every buffer belongs to exactly one bucket list (and nothing outside the
buffer array is linked into any list). -/
def partitionInv (st : BCache) : Prop :=
  ∀ j, bucketCount st j = if j < st.bufs.length then 1 else 0

/-! ### Concrete states used to exhibit divergences -/

/-- A single unpinned buffer whose release tick equals `maxtickInit`:
the strict `<` of the reclamation scan can never select it. -/
def highTickSt : BCache :=
  { bufs := [{ dev := 0, blockno := 0, valid := true, refcnt := 0,
               lastuse := maxtickInit, locked := false, data := 0 }],
    buckets := [[0], []] }

/-- One pinned buffer in bucket 0 and one unpinned buffer in bucket 1 whose
release tick `20000000` exceeds `maxtickInit`. -/
def lateFreeSt : BCache :=
  { bufs := [{ dev := 0, blockno := 0, valid := true, refcnt := 1, lastuse := 3,
               locked := false, data := 0 },
             { dev := 0, blockno := 1, valid := true, refcnt := 0,
               lastuse := 20000000, locked := false, data := 0 }],
    buckets := [[0], [1]] }

/-- A single buffer with `refcnt = 1` and a stale `lastuse = 7`. -/
def unpinSt : BCache :=
  { bufs := [{ dev := 0, blockno := 0, valid := true, refcnt := 1, lastuse := 7,
               locked := false, data := 9 }],
    buckets := [[0]] }

/-! ### Basic lemmas about the state operations -/

lemma getD_set_self {α : Type _} [Inhabited α] (l : List α) (i : Nat) (a : α)
    (h : i < l.length) : (l.set i a).getD i default = a := by
  simp [List.getD_eq_getElem?_getD, List.getElem?_set_self, h]

lemma getD_set_ne {α : Type _} [Inhabited α] (l : List α) (i j : Nat) (a : α)
    (h : j ≠ i) : (l.set i a).getD j default = l.getD j default := by
  simp [List.getD_eq_getElem?_getD, List.getElem?_set_ne (Ne.symm h)]

lemma bufAt_updateBuf_self (st : BCache) (i : Nat) (f : Buf → Buf)
    (h : i < st.bufs.length) : bufAt (updateBuf st i f) i = f (bufAt st i) :=
  getD_set_self _ _ _ h

lemma bufAt_updateBuf_ne (st : BCache) (i j : Nat) (f : Buf → Buf) (h : j ≠ i) :
    bufAt (updateBuf st i f) j = bufAt st j :=
  getD_set_ne _ _ _ _ h

lemma updateBuf_buckets (st : BCache) (i : Nat) (f : Buf → Buf) :
    (updateBuf st i f).buckets = st.buckets := rfl

lemma updateBuf_bufs_length (st : BCache) (i : Nat) (f : Buf → Buf) :
    (updateBuf st i f).bufs.length = st.bufs.length := by
  simp [updateBuf]

lemma find?_eq_some_of_uniq (p : Nat → Bool) (l : List Nat) (idx : Nat)
    (hmem : idx ∈ l) (hp : p idx = true)
    (huniq : ∀ j ∈ l, p j = true → j = idx) : l.find? p = some idx := by
  induction l with
  | nil => exact absurd hmem (List.not_mem_nil idx)
  | cons a t ih =>
    by_cases ha : p a = true
    · have : a = idx := huniq a (List.mem_cons_self a t) ha
      subst this
      simp [List.find?_cons, ha]
    · have hne : idx ≠ a := fun he => ha (he ▸ hp)
      have ht : idx ∈ t := by
        rcases List.mem_cons.mp hmem with h1 | h1
        · exact absurd h1 hne
        · exact h1
      have := ih ht (fun j hj hpj => huniq j (List.mem_cons_of_mem _ hj) hpj)
      simpa [List.find?_cons, ha] using this

/-! ### Claim theorems (error handling, lifecycle, hashing) -/

/-- **C1** (code bug): in `highTickSt`, buffer 0 sits in the scanned home
bucket with `refcnt == 0`, yet `bget` selects no reclamation candidate and
panics: `maxtick` starts at `memset`-produced `0x01010101 = 16843009`, and
the strict comparison `b->lastuse < maxtick` excludes every zero-ref buffer
whose `lastuse` is at least that, contradicting "no zero-ref entry is
excluded because of its tick value". -/
theorem bget_skips_free_buffer_at_high_tick :
    (bufAt highTickSt 0).refcnt = 0 ∧ 0 ∈ highTickSt.buckets.getD 0 [] ∧
    (bget highTickSt 0 2).1 = none := by
  refine ⟨rfl, by decide, by decide⟩

/-- **C2** (code bug): in `lateFreeSt`, buffer 1 has `refcnt == 0`
(`lastuse = 20000000 ≥ 16843009`), yet `bget` raises the capacity-exhaustion
panic, refuting "panics only when no entry anywhere has `ref_count == 0`". -/
theorem bget_panics_with_free_buffer_present :
    (bufAt lateFreeSt 1).refcnt = 0 ∧ 1 ∈ lateFreeSt.buckets.getD 1 [] ∧
    (bget lateFreeSt 0 2).1 = none := by
  refine ⟨rfl, by decide, by decide⟩

/-- **C3** (counterexample): `bunpin` takes buffer 0 of `unpinSt` from
`refcnt = 1` to `refcnt = 0` but leaves `lastuse` at its stale value 7 — it
never reads `ticks` — so for any current tick other than 7 the claim that
both `brelse` and `bunpin` stamp `last_release_tick` at the 1→0 transition
fails. -/
theorem bunpin_leaves_release_tick_stale :
    (bufAt unpinSt 0).refcnt = 1 ∧ (bufAt unpinSt 0).lastuse = 7 ∧
    (bufAt (bunpin unpinSt 0) 0).refcnt = 0 ∧
    (bufAt (bunpin unpinSt 0) 0).lastuse = 7 := by
  refine ⟨rfl, rfl, by decide, by decide⟩

lemma decWrap_one : decWrap 1 = 0 := by decide

lemma decWrap_eq_mod (r : Nat) (h : r < 2 ^ 32) :
    decWrap r = (r + (2 ^ 32 - 1)) % 2 ^ 32 := by
  unfold decWrap
  split <;> omega

/-- The buffer value a successful `brelse` writes back at tick `ticks`. -/
def brelseBuf (b : Buf) (ticks : Nat) : Buf :=
  { b with
    locked := false
    refcnt := decWrap b.refcnt
    lastuse := if decWrap b.refcnt = 0 then ticks else b.lastuse }

/-- Closed form of a successful `brelse`. -/
lemma brelse_some (st : BCache) (i ticks : Nat) (hi : i < st.bufs.length)
    (hl : (bufAt st i).locked = true) :
    brelse st i ticks
      = some { st with bufs := st.bufs.set i (brelseBuf (bufAt st i) ticks) } := by
  have hl' : ¬((st.bufs.getD i default).locked = false) := by
    simp [bufAt] at hl; simp [hl]
  unfold brelse
  rw [if_neg hl']
  have hset : ∀ (b : Buf), (st.bufs.set i b).getD i default = b :=
    fun b => getD_set_self _ _ _ (by simpa using hi)
  simp only [updateBuf, bufAt, hset, List.set_set, brelseBuf]
  split
  · rfl
  · rfl

lemma brelse_none (st : BCache) (i ticks : Nat)
    (hnl : (bufAt st i).locked = false) :
    brelse st i ticks = none := by
  simp [brelse, bufAt] at *; simp [hnl]

lemma bufAt_bunpin_self (t : BCache) (j : Nat) (hj : j < t.bufs.length) :
    bufAt (bunpin t j) j = { bufAt t j with refcnt := decWrap (bufAt t j).refcnt } :=
  bufAt_updateBuf_self t j _ hj

lemma bufAt_bpin_self (t : BCache) (j : Nat) (hj : j < t.bufs.length) :
    bufAt (bpin t j) j = { bufAt t j with refcnt := ((bufAt t j).refcnt + 1) % 2 ^ 32 } :=
  bufAt_updateBuf_self t j _ hj

/-- **C3 (amended)**: only `brelse` stamps `last_release_tick`: a `brelse`
taking `ref_count` from 1 to 0 sets `last_release_tick` to the current tick,
while `bunpin` on a buffer with `ref_count = 1` also reaches 0 but leaves
`last_release_tick` unchanged (it never reads the tick counter). -/
theorem release_tick_stamping
    (st : BCache) (i ticks : Nat) (st' : BCache) (t : BCache) (j : Nat)
    (hi : i < st.bufs.length)
    (hrc : (bufAt st i).refcnt = 1)
    (hrel : brelse st i ticks = some st')
    (hj : j < t.bufs.length)
    (hrt : (bufAt t j).refcnt = 1) :
    (bufAt st' i).refcnt = 0 ∧ (bufAt st' i).lastuse = ticks ∧
    (bufAt (bunpin t j) j).refcnt = 0 ∧
    (bufAt (bunpin t j) j).lastuse = (bufAt t j).lastuse := by
  have hl : (bufAt st i).locked = true := by
    by_contra h
    have : (bufAt st i).locked = false := by
      cases hx : (bufAt st i).locked
      · rfl
      · exact absurd hx h
    rw [brelse_none st i ticks this] at hrel
    exact Option.noConfusion hrel
  rw [brelse_some st i ticks hi hl] at hrel
  have hst' : st' = { st with bufs := st.bufs.set i (brelseBuf (bufAt st i) ticks) } := by
    cases hrel
    rfl
  have hbi : bufAt st' i = brelseBuf (bufAt st i) ticks := by
    rw [hst']
    show (st.bufs.set i _).getD i default = _
    exact getD_set_self _ _ _ (by simpa using hi)
  have hbp := bufAt_bunpin_self t j hj
  refine ⟨?_, ?_, ?_, by simp [hbp]⟩
  · rw [hbi]; simp [brelseBuf, hrc, decWrap_one]
  · rw [hbi]; simp [brelseBuf, hrc, decWrap_one]
  · rw [hbp]; simp [hrt, decWrap_one]

/-- A single buffer with `refcnt = 1` whose sleep-lock is held. -/
def lockedSt : BCache :=
  { bufs := [{ dev := 0, blockno := 0, valid := true, refcnt := 1, lastuse := 7,
               locked := true, data := 0 }],
    buckets := [[0]] }

/-- The state `brelse lockedSt 0 42` produces. -/
def lockedStReleased : BCache :=
  { bufs := [{ dev := 0, blockno := 0, valid := true, refcnt := 0, lastuse := 42,
               locked := false, data := 0 }],
    buckets := [[0]] }

/-- Witness for `release_tick_stamping`: a concrete `brelse` at tick 42 and a
concrete `bunpin`, both taking `ref_count` from 1 to 0. -/
theorem release_tick_stamping_witness :
    (0 < lockedSt.bufs.length ∧ (bufAt lockedSt 0).refcnt = 1 ∧
     brelse lockedSt 0 42 = some lockedStReleased ∧
     0 < unpinSt.bufs.length ∧ (bufAt unpinSt 0).refcnt = 1) ∧
    ((bufAt lockedStReleased 0).refcnt = 0 ∧ (bufAt lockedStReleased 0).lastuse = 42 ∧
     (bufAt (bunpin unpinSt 0) 0).refcnt = 0 ∧
     (bufAt (bunpin unpinSt 0) 0).lastuse = (bufAt unpinSt 0).lastuse) :=
  ⟨⟨by decide, by decide, by decide, by decide, by decide⟩,
   release_tick_stamping lockedSt 0 42 lockedStReleased unpinSt 0
     (by decide) (by decide) (by decide) (by decide) (by decide)⟩

lemma brelse_locked_of_some (st : BCache) (i ticks : Nat) (st' : BCache)
    (hrel : brelse st i ticks = some st') : (bufAt st i).locked = true := by
  by_contra h
  have hf : (bufAt st i).locked = false := by
    cases hx : (bufAt st i).locked
    · rfl
    · exact absurd hx h
  rw [brelse_none st i ticks hf] at hrel
  exact Option.noConfusion hrel

lemma decWrap_of_pos (r : Nat) (h0 : 0 < r) (h32 : r < 2 ^ 32) :
    decWrap r = r - 1 := by
  unfold decWrap
  rw [if_neg (by omega : ¬r = 0)]

/-- **C6**: `brelse` panics exactly when the caller does not hold the
sleep-lock; on success it releases the sleep-lock, decrements `refcnt`
(`uint` wrap-around, i.e. minus one for any positive in-range count), stamps
`lastuse` with the current tick exactly when the count reaches 0, leaves the
buffer's identity, validity and content untouched, leaves every other buffer
untouched, and performs no list mutation. -/
theorem brelse_spec
    (st : BCache) (i ticks : Nat) (st' : BCache) (k : Nat)
    (st₂ : BCache) (i₂ t₂ : Nat) (st₃ : BCache) (i₃ t₃ : Nat)
    (hi : i < st.bufs.length)
    (hrel : brelse st i ticks = some st')
    (hk : k ≠ i)
    (hl₂ : (bufAt st₂ i₂).locked = true)
    (hnl₃ : (bufAt st₃ i₃).locked = false) :
    (bufAt st i).locked = true ∧
    st'.buckets = st.buckets ∧
    (bufAt st' i).locked = false ∧
    (bufAt st' i).refcnt = decWrap (bufAt st i).refcnt ∧
    (0 < (bufAt st i).refcnt → (bufAt st i).refcnt < 2 ^ 32 →
      (bufAt st' i).refcnt = (bufAt st i).refcnt - 1) ∧
    (bufAt st' i).lastuse
      = (if (bufAt st' i).refcnt = 0 then ticks else (bufAt st i).lastuse) ∧
    (bufAt st' i).dev = (bufAt st i).dev ∧
    (bufAt st' i).blockno = (bufAt st i).blockno ∧
    (bufAt st' i).valid = (bufAt st i).valid ∧
    (bufAt st' i).data = (bufAt st i).data ∧
    bufAt st' k = bufAt st k ∧
    brelse st₂ i₂ t₂ ≠ none ∧
    brelse st₃ i₃ t₃ = none := by
  have hl := brelse_locked_of_some st i ticks st' hrel
  rw [brelse_some st i ticks hi hl] at hrel
  have hst' : st' = { st with bufs := st.bufs.set i (brelseBuf (bufAt st i) ticks) } := by
    cases hrel
    rfl
  subst hst'
  have hbi : bufAt { st with bufs := st.bufs.set i (brelseBuf (bufAt st i) ticks) } i
      = brelseBuf (bufAt st i) ticks :=
    getD_set_self _ _ _ (by simpa using hi)
  have hbk : bufAt { st with bufs := st.bufs.set i (brelseBuf (bufAt st i) ticks) } k
      = bufAt st k :=
    getD_set_ne _ _ _ _ hk
  have hnl2 : ¬((st₂.bufs.getD i₂ default).locked = false) := by
    have h : (st₂.bufs.getD i₂ default).locked = true := hl₂
    rw [h]
    simp
  refine ⟨hl, rfl, ?_, ?_, ?_, ?_, ?_, ?_, ?_, ?_, hbk, ?_, ?_⟩
  · rw [hbi]; rfl
  · rw [hbi]; rfl
  · intro h0 h32
    rw [hbi]
    exact decWrap_of_pos _ h0 h32
  · rw [hbi]; rfl
  · rw [hbi]; rfl
  · rw [hbi]; rfl
  · rw [hbi]; rfl
  · rw [hbi]; rfl
  · intro hc
    unfold brelse at hc
    rw [if_neg hnl2] at hc
    exact Option.noConfusion hc
  · exact brelse_none st₃ i₃ t₃ hnl₃

/-- Witness for `brelse_spec`: releasing `lockedSt`'s buffer at tick 42. -/
theorem brelse_spec_witness :
    (0 < lockedSt.bufs.length ∧ brelse lockedSt 0 42 = some lockedStReleased ∧
     (1 : Nat) ≠ 0 ∧ (bufAt lockedSt 0).locked = true ∧ (bufAt unpinSt 0).locked = false) ∧
    ((bufAt lockedSt 0).locked = true ∧
     lockedStReleased.buckets = lockedSt.buckets ∧
     (bufAt lockedStReleased 0).locked = false ∧
     (bufAt lockedStReleased 0).refcnt = decWrap (bufAt lockedSt 0).refcnt ∧
     (0 < (bufAt lockedSt 0).refcnt → (bufAt lockedSt 0).refcnt < 2 ^ 32 →
       (bufAt lockedStReleased 0).refcnt = (bufAt lockedSt 0).refcnt - 1) ∧
     (bufAt lockedStReleased 0).lastuse
       = (if (bufAt lockedStReleased 0).refcnt = 0 then 42 else (bufAt lockedSt 0).lastuse) ∧
     (bufAt lockedStReleased 0).dev = (bufAt lockedSt 0).dev ∧
     (bufAt lockedStReleased 0).blockno = (bufAt lockedSt 0).blockno ∧
     (bufAt lockedStReleased 0).valid = (bufAt lockedSt 0).valid ∧
     (bufAt lockedStReleased 0).data = (bufAt lockedSt 0).data ∧
     bufAt lockedStReleased 1 = bufAt lockedSt 1 ∧
     brelse lockedSt 0 7 ≠ none ∧
     brelse unpinSt 0 7 = none) :=
  ⟨⟨by decide, by decide, by decide, by decide, by decide⟩,
   brelse_spec lockedSt 0 42 lockedStReleased 1 lockedSt 0 7 unpinSt 0 7
     (by decide) (by decide) (by decide) (by decide) (by decide)⟩

/-- **C9**: `bwrite` panics exactly when the caller does not hold the
sleep-lock; with the lock held it unconditionally transfers the current
content out (direction `write`), changing nothing: the returned state is the
input state, so `refcnt` is unchanged and the sleep-lock is still held. -/
theorem bwrite_spec (st : BCache) (i : Nat) (st₂ : BCache) (i₂ : Nat)
    (hl : (bufAt st i).locked = true)
    (hnl : (bufAt st₂ i₂).locked = false) :
    bwrite st i = some (st, ((bufAt st i).dev, (bufAt st i).blockno, (bufAt st i).data)) ∧
    bwrite st₂ i₂ = none := by
  have hl' : (st.bufs.getD i default).locked = true := hl
  have hnl' : (st₂.bufs.getD i₂ default).locked = false := hnl
  refine ⟨?_, ?_⟩
  · unfold bwrite
    rw [if_neg (by rw [hl']; simp : ¬(st.bufs.getD i default).locked = false)]
    rfl
  · unfold bwrite
    rw [if_pos hnl']

/-- Witness for `bwrite_spec`: a locked and an unlocked concrete buffer. -/
theorem bwrite_spec_witness :
    ((bufAt lockedSt 0).locked = true ∧ (bufAt unpinSt 0).locked = false) ∧
    (bwrite lockedSt 0
        = some (lockedSt, ((bufAt lockedSt 0).dev, (bufAt lockedSt 0).blockno,
                           (bufAt lockedSt 0).data)) ∧
     bwrite unpinSt 0 = none) :=
  ⟨⟨by decide, by decide⟩, bwrite_spec lockedSt 0 unpinSt 0 (by decide) (by decide)⟩

/-- **C8** (counterexample): for the 32-bit block number `2^31 + 1` and two
buckets, the `uint → int` conversion at the call to `hash` makes the C `%`
return `-1`: the computed index is negative, not `blockno mod B`, and out of
the bucket-array bounds. -/
theorem hash_negative_out_of_range :
    hash 2 (2 ^ 31 + 1) = -1 ∧ ((2 ^ 31 + 1) % 2 : Nat) = 1 ∧
    hash 2 (2 ^ 31 + 1) < 0 := by decide

/-- **C8 (amended)**: for block numbers below `2^31` (representable as a
nonnegative `int`) the computed hash equals `blockno mod B` and the bucket
index used by `bget`/`brelse`/`bpin`/`bunpin` is in bounds. -/
theorem hash_in_range (B blockno : Nat) (hB : 0 < B) (hblk : blockno < 2 ^ 31) :
    hash B blockno = ((blockno % B : Nat) : Int) ∧
    hashN B blockno = blockno % B ∧ hashN B blockno < B := by
  have h1 : blockno % 2 ^ 32 = blockno := Nat.mod_eq_of_lt (lt_trans hblk (by norm_num))
  have h2 : toInt32 blockno = (blockno : Int) := by
    unfold toInt32
    rw [h1, if_pos hblk]
  have h3 : hash B blockno = (blockno : Int) % (B : Int) := by
    unfold hash cMod
    rw [h2, if_pos (Int.natCast_nonneg blockno)]
  have h4 : (blockno : Int) % (B : Int) = ((blockno % B : Nat) : Int) :=
    (Int.natCast_mod blockno B).symm
  have h5 : hashN B blockno = blockno % B := by
    unfold hashN
    rw [h3, h4, Int.toNat_natCast]
  exact ⟨by rw [h3, h4], h5, by rw [h5]; exact Nat.mod_lt _ hB⟩

/-- Witness for `hash_in_range` at `B = 13`, `blockno = 7`. -/
theorem hash_in_range_witness :
    ((0 : Nat) < 13 ∧ (7 : Nat) < 2 ^ 31) ∧
    (hash 13 7 = ((7 % 13 : Nat) : Int) ∧ hashN 13 7 = 7 % 13 ∧ hashN 13 7 < 13) :=
  ⟨⟨by decide, by decide⟩, hash_in_range 13 7 (by decide) (by decide)⟩

/-! ### Result accessors and the cache-hit path -/

/-- Index of the buffer returned by `bget` (`none` on panic). -/
def bgetIdx (st : BCache) (dev blockno : Nat) : Option Nat :=
  (bget st dev blockno).1.map Prod.snd

/-- State after `bget` (the input state on panic). -/
def bgetSt (st : BCache) (dev blockno : Nat) : BCache :=
  ((bget st dev blockno).1.map Prod.fst).getD st

/-- Index of the buffer returned by `bread` (`none` on panic). -/
def breadIdx (disk : Nat → Nat → Nat) (st : BCache) (dev blockno : Nat) : Option Nat :=
  (bread disk st dev blockno).1.map (fun r => r.2.1)

/-- State after `bread` (the input state on panic). -/
def breadSt (disk : Nat → Nat → Nat) (st : BCache) (dev blockno : Nat) : BCache :=
  ((bread disk st dev blockno).1.map Prod.fst).getD st

/-- Whether `bread` invoked the disk transfer (`none` on panic). -/
def breadDidTransfer (disk : Nat → Nat → Nat) (st : BCache) (dev blockno : Nat) :
    Option Bool :=
  (bread disk st dev blockno).1.map (fun r => r.2.2)

/-- Computation of `bget` on the cached (fast) path. -/
lemma bget_hit_eq (st : BCache) (dev blockno idx : Nat)
    (hfind : findHit st.bufs (st.buckets.getD (hashN st.buckets.length blockno) [])
      dev blockno = some idx) :
    bget st dev blockno =
      (some (updateBuf (updateBuf st idx
          (fun b => { b with refcnt := (b.refcnt + 1) % 2 ^ 32 })) idx
          (fun b => { b with locked := true }), idx),
       [Ev.acq (hashN st.buckets.length blockno),
        Ev.rel (hashN st.buckets.length blockno), Ev.sleepAcq idx]) := by
  simp only [bget]
  rw [hfind]

/-- Reduction of `bread` once the `bget` result is known. -/
lemma bread_eq_of_bget (disk : Nat → Nat → Nat) (st : BCache) (dev blockno : Nat)
    (st1 : BCache) (idx : Nat) (evs : List Ev)
    (h : bget st dev blockno = (some (st1, idx), evs)) :
    bread disk st dev blockno =
      (if (st1.bufs.getD idx default).valid then (some (st1, idx, false), evs)
       else (some (updateBuf st1 idx
         (fun b => { b with data := disk dev blockno, valid := true }), idx, true), evs)) := by
  unfold bread
  rw [h]

/-- **C5**: when the home bucket already holds the (unique) entry matching
`(dev, blockno)`, `bget` returns exactly that entry with `refcnt` incremented
by one, changing no other buffer and no bucket list (no second slot is bound
to the identity), and `bread` returns it with `valid = true`, invoking the
disk transfer exactly when the entry's `valid` flag was false after
admission — a previously-filled entry is returned without a new transfer. -/
theorem bget_hit_bread_cached
    (st : BCache) (dev blockno idx k : Nat) (disk : Nat → Nat → Nat)
    (hidx : idx ∈ st.buckets.getD (hashN st.buckets.length blockno) [])
    (hmatch : bufMatch (bufAt st idx) dev blockno = true)
    (huniq : ∀ j ∈ st.buckets.getD (hashN st.buckets.length blockno) [],
      bufMatch (bufAt st j) dev blockno = true → j = idx)
    (hlen : idx < st.bufs.length)
    (hrc : (bufAt st idx).refcnt + 1 < 2 ^ 32)
    (hk : k ≠ idx) :
    bgetIdx st dev blockno = some idx ∧
    bufAt (bgetSt st dev blockno) idx
      = { bufAt st idx with refcnt := (bufAt st idx).refcnt + 1, locked := true } ∧
    bufAt (bgetSt st dev blockno) k = bufAt st k ∧
    (bgetSt st dev blockno).buckets = st.buckets ∧
    breadIdx disk st dev blockno = some idx ∧
    (bufAt (breadSt disk st dev blockno) idx).valid = true ∧
    breadDidTransfer disk st dev blockno = some (!(bufAt st idx).valid) := by
  have hfind : findHit st.bufs (st.buckets.getD (hashN st.buckets.length blockno) [])
      dev blockno = some idx :=
    find?_eq_some_of_uniq _ _ idx hidx hmatch huniq
  have hbg := bget_hit_eq st dev blockno idx hfind
  have hlen1 : idx < (updateBuf st idx
      (fun b => { b with refcnt := (b.refcnt + 1) % 2 ^ 32 })).bufs.length := by
    rwa [updateBuf_bufs_length]
  have hlen2 : idx < (updateBuf (updateBuf st idx
      (fun b => { b with refcnt := (b.refcnt + 1) % 2 ^ 32 })) idx
      (fun b => { b with locked := true })).bufs.length := by
    rwa [updateBuf_bufs_length, updateBuf_bufs_length]
  have hrc' : (bufAt st idx).refcnt + 1 < 4294967296 := hrc
  have hb2 : bufAt (updateBuf (updateBuf st idx
      (fun b => { b with refcnt := (b.refcnt + 1) % 2 ^ 32 })) idx
      (fun b => { b with locked := true })) idx
      = { bufAt st idx with refcnt := (bufAt st idx).refcnt + 1, locked := true } := by
    rw [bufAt_updateBuf_self _ _ _ hlen1, bufAt_updateBuf_self _ _ _ hlen]
    simp [Nat.mod_eq_of_lt hrc']
  have hbk : bufAt (updateBuf (updateBuf st idx
      (fun b => { b with refcnt := (b.refcnt + 1) % 2 ^ 32 })) idx
      (fun b => { b with locked := true })) k = bufAt st k := by
    rw [bufAt_updateBuf_ne _ _ _ _ hk, bufAt_updateBuf_ne _ _ _ _ hk]
  have hgSt : bgetSt st dev blockno = updateBuf (updateBuf st idx
      (fun b => { b with refcnt := (b.refcnt + 1) % 2 ^ 32 })) idx
      (fun b => { b with locked := true }) := by
    unfold bgetSt
    rw [hbg]
    rfl
  have hcond : ∀ v, (bufAt st idx).valid = v →
      ((updateBuf (updateBuf st idx
        (fun b => { b with refcnt := (b.refcnt + 1) % 2 ^ 32 })) idx
        (fun b => { b with locked := true })).bufs.getD idx default).valid = v := by
    intro v hv
    have h : (bufAt (updateBuf (updateBuf st idx
        (fun b => { b with refcnt := (b.refcnt + 1) % 2 ^ 32 })) idx
        (fun b => { b with locked := true })) idx).valid = v := by
      rw [hb2]
      exact hv
    exact h
  have hbread_t : (bufAt st idx).valid = true →
      bread disk st dev blockno
        = (some (updateBuf (updateBuf st idx
            (fun b => { b with refcnt := (b.refcnt + 1) % 2 ^ 32 })) idx
            (fun b => { b with locked := true }), idx, false),
           [Ev.acq (hashN st.buckets.length blockno),
            Ev.rel (hashN st.buckets.length blockno), Ev.sleepAcq idx]) := by
    intro hv
    rw [bread_eq_of_bget disk st dev blockno _ idx _ hbg]
    rw [if_pos (hcond true hv)]
  have hbread_f : (bufAt st idx).valid = false →
      bread disk st dev blockno
        = (some (updateBuf (updateBuf (updateBuf st idx
            (fun b => { b with refcnt := (b.refcnt + 1) % 2 ^ 32 })) idx
            (fun b => { b with locked := true })) idx
            (fun b => { b with data := disk dev blockno, valid := true }), idx, true),
           [Ev.acq (hashN st.buckets.length blockno),
            Ev.rel (hashN st.buckets.length blockno), Ev.sleepAcq idx]) := by
    intro hv
    rw [bread_eq_of_bget disk st dev blockno _ idx _ hbg]
    rw [if_neg (by rw [hcond false hv]; simp)]
  refine ⟨?_, ?_, ?_, ?_, ?_, ?_, ?_⟩
  · unfold bgetIdx
    rw [hbg]
    rfl
  · rw [hgSt]
    exact hb2
  · rw [hgSt]
    exact hbk
  · rw [hgSt]
    rfl
  · cases hv : (bufAt st idx).valid
    · unfold breadIdx
      rw [hbread_f hv]
      rfl
    · unfold breadIdx
      rw [hbread_t hv]
      rfl
  · cases hv : (bufAt st idx).valid
    · unfold breadSt
      rw [hbread_f hv]
      show (bufAt (updateBuf (updateBuf (updateBuf st idx
        (fun b => { b with refcnt := (b.refcnt + 1) % 2 ^ 32 })) idx
        (fun b => { b with locked := true })) idx
        (fun b => { b with data := disk dev blockno, valid := true })) idx).valid = true
      rw [bufAt_updateBuf_self _ _ _ hlen2]
    · unfold breadSt
      rw [hbread_t hv]
      show (bufAt (updateBuf (updateBuf st idx
        (fun b => { b with refcnt := (b.refcnt + 1) % 2 ^ 32 })) idx
        (fun b => { b with locked := true })) idx).valid = true
      rw [hb2]
      exact hv
  · cases hv : (bufAt st idx).valid
    · unfold breadDidTransfer
      rw [hbread_f hv]
      simp [hv]
    · unfold breadDidTransfer
      rw [hbread_t hv]
      simp [hv]

/-- One cached, already-valid buffer for block `(1, 5)` in a one-bucket cache. -/
def hitSt : BCache :=
  { bufs := [{ dev := 1, blockno := 5, valid := true, refcnt := 1, lastuse := 0,
               locked := false, data := 77 }],
    buckets := [[0]] }

/-- Witness for `bget_hit_bread_cached`: a hit on the already-valid entry of
`hitSt` — no transfer happens. -/
theorem bget_hit_bread_cached_witness :
    (0 ∈ hitSt.buckets.getD (hashN hitSt.buckets.length 5) [] ∧
     bufMatch (bufAt hitSt 0) 1 5 = true ∧
     (∀ j ∈ hitSt.buckets.getD (hashN hitSt.buckets.length 5) [],
       bufMatch (bufAt hitSt j) 1 5 = true → j = 0) ∧
     0 < hitSt.bufs.length ∧ (bufAt hitSt 0).refcnt + 1 < 2 ^ 32 ∧ (1 : Nat) ≠ 0) ∧
    (bgetIdx hitSt 1 5 = some 0 ∧
     bufAt (bgetSt hitSt 1 5) 0
       = { bufAt hitSt 0 with refcnt := (bufAt hitSt 0).refcnt + 1, locked := true } ∧
     bufAt (bgetSt hitSt 1 5) 1 = bufAt hitSt 1 ∧
     (bgetSt hitSt 1 5).buckets = hitSt.buckets ∧
     breadIdx (fun d b => d + b) hitSt 1 5 = some 0 ∧
     (bufAt (breadSt (fun d b => d + b) hitSt 1 5) 0).valid = true ∧
     breadDidTransfer (fun d b => d + b) hitSt 1 5 = some (!(bufAt hitSt 0).valid)) :=
  ⟨⟨by decide, by decide, by decide, by decide, by decide, by decide⟩,
   bget_hit_bread_cached hitSt 1 5 0 1 (fun d b => d + b)
     (by decide) (by decide) (by decide) (by decide) (by decide) (by decide)⟩

/-! ### Reclamation-scan and eviction-loop lemmas -/

lemma scanFold_cases (bufs : List Buf) (idxs : List Nat) :
    ∀ acc : Option Nat × Nat × Bool,
      idxs.foldl (scanStep bufs) acc = acc ∨
      ∃ j ∈ idxs, ∃ mt2, idxs.foldl (scanStep bufs) acc = (some j, mt2, true) := by
  induction idxs with
  | nil => intro acc; exact Or.inl rfl
  | cons a t ih =>
    intro acc
    rw [List.foldl_cons]
    by_cases hc : (bufs.getD a default).refcnt = 0 ∧ (bufs.getD a default).lastuse < acc.2.1
    · have hstep : scanStep bufs acc a = (some a, (bufs.getD a default).lastuse, true) := by
        simp only [scanStep]
        rw [if_pos hc]
      rw [hstep]
      rcases ih (some a, (bufs.getD a default).lastuse, true) with heq | ⟨j, hj, mt2, heq⟩
      · exact Or.inr ⟨a, List.mem_cons_self a t, (bufs.getD a default).lastuse, heq⟩
      · exact Or.inr ⟨j, List.mem_cons_of_mem a hj, mt2, heq⟩
    · have hstep : scanStep bufs acc a = acc := by
        simp only [scanStep]
        rw [if_neg hc]
      rw [hstep]
      rcases ih acc with heq | ⟨j, hj, mt2, heq⟩
      · exact Or.inl heq
      · exact Or.inr ⟨j, List.mem_cons_of_mem a hj, mt2, heq⟩

lemma scanBucket_some (bufs : List Buf) (idxs : List Nat) (cozy : Option Nat) (mt : Nat)
    (j mt2 : Nat) (c : Bool)
    (h : scanBucket bufs idxs cozy mt = (some j, mt2, c)) :
    cozy = some j ∨ j ∈ idxs := by
  rcases scanFold_cases bufs idxs (cozy, mt, false) with heq | ⟨j2, hj2, mt3, heq⟩
  · rw [scanBucket, heq] at h
    have hc : cozy = some j := congrArg Prod.fst h
    exact Or.inl hc
  · rw [scanBucket, heq] at h
    have hc : some j2 = some j := congrArg Prod.fst h
    obtain rfl : j2 = j := Option.some.inj hc
    exact Or.inr hj2

lemma scanBucket_stuck (bufs : List Buf) (idxs : List Nat) (cozy : Option Nat) (mt : Nat)
    (cz2 : Option Nat) (mt2 : Nat)
    (h : scanBucket bufs idxs cozy mt = (cz2, mt2, false)) :
    cz2 = cozy ∧ mt2 = mt := by
  rcases scanFold_cases bufs idxs (cozy, mt, false) with heq | ⟨j2, hj2, mt3, heq⟩
  · rw [scanBucket, heq] at h
    have h1 : cozy = cz2 := congrArg Prod.fst h
    have h2 : mt = mt2 := congrArg (fun x => x.2.1) h
    exact ⟨h1.symm, h2.symm⟩
  · rw [scanBucket, heq] at h
    have hb : true = false := congrArg (fun x => x.2.2) h
    exact Bool.noConfusion hb

lemma evictLoop_nil (st : BCache) (lockid : Nat) (acc : Option Nat × Nat × Nat × List Ev) :
    evictLoop st lockid [] acc = acc := rfl

lemma evictLoop_cons_skip (st : BCache) (lockid : Nat) (rest : List Nat)
    (cozy : Option Nat) (mt bktid : Nat) (evs : List Ev) :
    evictLoop st lockid (lockid :: rest) (cozy, mt, bktid, evs)
      = evictLoop st lockid rest (cozy, mt, bktid, evs) := by
  simp only [evictLoop, eq_self_iff_true, if_true]

lemma evictLoop_cons_changed (st : BCache) (lockid i : Nat) (rest : List Nat)
    (cozy : Option Nat) (mt bktid : Nat) (evs : List Ev)
    (hne : i ≠ lockid) (cz2 : Option Nat) (mt2 : Nat)
    (hscan : scanBucket st.bufs ((st.buckets.getD i []).reverse) cozy mt = (cz2, mt2, true)) :
    evictLoop st lockid (i :: rest) (cozy, mt, bktid, evs)
      = evictLoop st lockid rest (cz2, mt2, i,
          evs ++ [Ev.acq i] ++ (if bktid = lockid then [] else [Ev.rel bktid])) := by
  simp only [evictLoop, if_neg hne, hscan, if_true]

lemma evictLoop_cons_unchanged (st : BCache) (lockid i : Nat) (rest : List Nat)
    (cozy : Option Nat) (mt bktid : Nat) (evs : List Ev)
    (hne : i ≠ lockid) (cz2 : Option Nat) (mt2 : Nat)
    (hscan : scanBucket st.bufs ((st.buckets.getD i []).reverse) cozy mt = (cz2, mt2, false)) :
    evictLoop st lockid (i :: rest) (cozy, mt, bktid, evs)
      = evictLoop st lockid rest (cz2, mt2, bktid, evs ++ [Ev.acq i, Ev.rel i]) := by
  simp only [evictLoop, if_neg hne, hscan, Bool.false_eq_true, if_false]

lemma evictLoop_cozy (st : BCache) (lockid : Nat) :
    ∀ (l : List Nat) (cozy : Option Nat) (mt bktid : Nat) (evs : List Ev)
      (cz2 : Option Nat) (m2 bk2 : Nat) (evs2 : List Ev) (j : Nat),
      evictLoop st lockid l (cozy, mt, bktid, evs) = (cz2, m2, bk2, evs2) →
      cz2 = some j →
      cozy = some j ∨ ∃ i ∈ l, j ∈ st.buckets.getD i [] := by
  intro l
  induction l with
  | nil =>
    intro cozy mt bktid evs cz2 m2 bk2 evs2 j hev hsome
    rw [evictLoop_nil] at hev
    cases hev
    exact Or.inl hsome
  | cons i rest ih =>
    intro cozy mt bktid evs cz2 m2 bk2 evs2 j hev hsome
    by_cases hil : i = lockid
    · subst hil
      rw [evictLoop_cons_skip] at hev
      rcases ih cozy mt bktid evs cz2 m2 bk2 evs2 j hev hsome with h | ⟨i2, hi2, hm⟩
      · exact Or.inl h
      · exact Or.inr ⟨i2, List.mem_cons_of_mem _ hi2, hm⟩
    · rcases hscan : scanBucket st.bufs ((st.buckets.getD i []).reverse) cozy mt
        with ⟨cz3, mt3, ch⟩
      cases ch
      · rw [evictLoop_cons_unchanged st lockid i rest cozy mt bktid evs hil cz3 mt3 hscan]
          at hev
        rcases ih cz3 mt3 bktid _ cz2 m2 bk2 evs2 j hev hsome with h | ⟨i2, hi2, hm⟩
        · obtain ⟨hcz, hmt⟩ := scanBucket_stuck _ _ _ _ _ _ hscan
          exact Or.inl (hcz ▸ h)
        · exact Or.inr ⟨i2, List.mem_cons_of_mem _ hi2, hm⟩
      · rw [evictLoop_cons_changed st lockid i rest cozy mt bktid evs hil cz3 mt3 hscan]
          at hev
        rcases ih cz3 mt3 i _ cz2 m2 bk2 evs2 j hev hsome with h | ⟨i2, hi2, hm⟩
        · rcases scanBucket_some _ _ _ _ _ _ _ (h ▸ hscan) with hcz | hmem
          · exact Or.inl hcz
          · exact Or.inr ⟨i, List.mem_cons_self i rest, List.mem_reverse.mp hmem⟩
        · exact Or.inr ⟨i2, List.mem_cons_of_mem _ hi2, hm⟩

/-! ### Path equations for bget and the shape of every successful return -/

lemma bget_local_eq (st : BCache) (dev blockno idx mtv : Nat) (ch : Bool)
    (hfind : findHit st.bufs (st.buckets.getD (hashN st.buckets.length blockno) [])
      dev blockno = none)
    (hscan : scanBucket st.bufs
      ((st.buckets.getD (hashN st.buckets.length blockno) []).reverse) none maxtickInit
      = (some idx, mtv, ch)) :
    bget st dev blockno
      = (some (updateBuf st idx (fun b =>
          { b with dev := dev, blockno := blockno, valid := false, refcnt := 1, locked := true }), idx),
         [Ev.acq (hashN st.buckets.length blockno),
          Ev.rel (hashN st.buckets.length blockno), Ev.sleepAcq idx]) := by
  simp only [bget, hfind, hscan]

lemma bget_evict_some_eq (st : BCache) (dev blockno mtv : Nat) (ch : Bool)
    (idx m2 bktid : Nat) (evs2 : List Ev)
    (hfind : findHit st.bufs (st.buckets.getD (hashN st.buckets.length blockno) [])
      dev blockno = none)
    (hscan : scanBucket st.bufs
      ((st.buckets.getD (hashN st.buckets.length blockno) []).reverse) none maxtickInit
      = (none, mtv, ch))
    (hev : evictLoop st (hashN st.buckets.length blockno)
      (List.range st.buckets.length)
      (none, mtv, hashN st.buckets.length blockno,
       [Ev.acq (hashN st.buckets.length blockno),
        Ev.rel (hashN st.buckets.length blockno)]) = (some idx, m2, bktid, evs2)) :
    bget st dev blockno
      = (some (updateBuf
          { st with buckets := relocateBuckets st.buckets (hashN st.buckets.length blockno) idx } idx
          (fun b => { b with dev := dev, blockno := blockno, valid := false, refcnt := 1, locked := true }), idx),
         evs2 ++ [Ev.acq (hashN st.buckets.length blockno),
                  Ev.rel (hashN st.buckets.length blockno), Ev.rel bktid,
                  Ev.sleepAcq idx]) := by
  simp only [bget, hfind, hscan, hev]

lemma bget_evict_none_eq (st : BCache) (dev blockno mtv : Nat) (ch : Bool)
    (m2 bktid : Nat) (evs2 : List Ev)
    (hfind : findHit st.bufs (st.buckets.getD (hashN st.buckets.length blockno) [])
      dev blockno = none)
    (hscan : scanBucket st.bufs
      ((st.buckets.getD (hashN st.buckets.length blockno) []).reverse) none maxtickInit
      = (none, mtv, ch))
    (hev : evictLoop st (hashN st.buckets.length blockno)
      (List.range st.buckets.length)
      (none, mtv, hashN st.buckets.length blockno,
       [Ev.acq (hashN st.buckets.length blockno),
        Ev.rel (hashN st.buckets.length blockno)]) = (none, m2, bktid, evs2)) :
    bget st dev blockno
      = (none, evs2 ++ [Ev.acq (hashN st.buckets.length blockno),
                        Ev.rel (hashN st.buckets.length blockno)]
            ++ (if bktid = hashN st.buckets.length blockno then []
                else [Ev.rel bktid])) := by
  simp only [bget, hfind, hscan, hev]

/-- Every successful `bget` has one of three shapes: a cache hit (`refcnt`
bump), an in-place reassignment of a zero-ref buffer of the home bucket, or
a relocation of a zero-ref buffer found in the cross-bucket scan; the
returned index is always a buffer linked into some bucket list. -/
lemma bget_some_cases (st : BCache) (dev blockno : Nat) (st2 : BCache) (idx : Nat)
    (evs : List Ev) (hbg : bget st dev blockno = (some (st2, idx), evs)) :
    (findHit st.bufs (st.buckets.getD (hashN st.buckets.length blockno) []) dev blockno
        = some idx ∧
      idx ∈ st.buckets.getD (hashN st.buckets.length blockno) [] ∧
      st2 = updateBuf (updateBuf st idx
        (fun b => { b with refcnt := (b.refcnt + 1) % 2 ^ 32 })) idx
        (fun b => { b with locked := true })) ∨
    (idx ∈ st.buckets.getD (hashN st.buckets.length blockno) [] ∧
      st2 = updateBuf st idx (fun b =>
        { b with dev := dev, blockno := blockno, valid := false, refcnt := 1, locked := true })) ∨
    ((∃ i, idx ∈ st.buckets.getD i []) ∧
      st2 = updateBuf { st with buckets := relocateBuckets st.buckets (hashN st.buckets.length blockno) idx } idx
        (fun b => { b with dev := dev, blockno := blockno, valid := false, refcnt := 1, locked := true })) := by
  rcases hf : findHit st.bufs (st.buckets.getD (hashN st.buckets.length blockno) [])
      dev blockno with _ | idx0
  · rcases hscan : scanBucket st.bufs
        ((st.buckets.getD (hashN st.buckets.length blockno) []).reverse) none maxtickInit
      with ⟨cz, mtv, ch⟩
    rcases cz with _ | idx0
    · rcases hev : evictLoop st (hashN st.buckets.length blockno)
          (List.range st.buckets.length)
          (none, mtv, hashN st.buckets.length blockno,
           [Ev.acq (hashN st.buckets.length blockno),
            Ev.rel (hashN st.buckets.length blockno)]) with ⟨cz2, m2, bktid, evs2⟩
      rcases cz2 with _ | idx0
      · rw [bget_evict_none_eq st dev blockno mtv ch m2 bktid evs2 hf hscan hev] at hbg
        have hcontra : (none : Option (BCache × Nat)) = some (st2, idx) :=
          congrArg Prod.fst hbg
        exact Option.noConfusion hcontra
      · rw [bget_evict_some_eq st dev blockno mtv ch idx0 m2 bktid evs2 hf hscan hev] at hbg
        have hfst : some (updateBuf
            { st with buckets := relocateBuckets st.buckets (hashN st.buckets.length blockno) idx0 } idx0
            (fun b => { b with dev := dev, blockno := blockno, valid := false, refcnt := 1, locked := true }), idx0) = some (st2, idx) :=
          congrArg Prod.fst hbg
        have hp := Option.some.inj hfst
        have hidx : idx0 = idx := congrArg Prod.snd hp
        subst hidx
        have hst2 : st2 = updateBuf
            { st with buckets := relocateBuckets st.buckets (hashN st.buckets.length blockno) idx0 } idx0
            (fun b => { b with dev := dev, blockno := blockno, valid := false, refcnt := 1, locked := true }) := (congrArg Prod.fst hp).symm
        refine Or.inr (Or.inr ⟨?_, hst2⟩)
        have h1 : (evictLoop st (hashN st.buckets.length blockno)
            (List.range st.buckets.length)
            (none, mtv, hashN st.buckets.length blockno,
             [Ev.acq (hashN st.buckets.length blockno),
              Ev.rel (hashN st.buckets.length blockno)])).1 = some idx0 := by
          rw [hev]
        rcases evictLoop_cozy st (hashN st.buckets.length blockno)
            (List.range st.buckets.length) none mtv (hashN st.buckets.length blockno)
            _ (some idx0) m2 bktid evs2 idx0 hev rfl with hn | ⟨i, _, hm⟩
        · exact Option.noConfusion hn
        · exact ⟨i, hm⟩
    · rw [bget_local_eq st dev blockno idx0 mtv ch hf hscan] at hbg
      have hfst : some (updateBuf st idx0 (fun b =>
          { b with dev := dev, blockno := blockno, valid := false, refcnt := 1, locked := true }), idx0) = some (st2, idx) :=
        congrArg Prod.fst hbg
      have hp := Option.some.inj hfst
      have hidx : idx0 = idx := congrArg Prod.snd hp
      subst hidx
      have hst2 : st2 = updateBuf st idx0 (fun b =>
          { b with dev := dev, blockno := blockno, valid := false, refcnt := 1, locked := true }) := (congrArg Prod.fst hp).symm
      refine Or.inr (Or.inl ⟨?_, hst2⟩)
      rcases scanBucket_some st.bufs
          ((st.buckets.getD (hashN st.buckets.length blockno) []).reverse) none maxtickInit
          idx0 mtv ch hscan with hn | hm
      · exact Option.noConfusion hn
      · exact List.mem_reverse.mp hm
  · rw [bget_hit_eq st dev blockno idx0 hf] at hbg
    have hfst : some (updateBuf (updateBuf st idx0
        (fun b => { b with refcnt := (b.refcnt + 1) % 2 ^ 32 })) idx0
        (fun b => { b with locked := true }), idx0) = some (st2, idx) :=
      congrArg Prod.fst hbg
    have hp := Option.some.inj hfst
    have hidx : idx0 = idx := congrArg Prod.snd hp
    subst hidx
    have hst2 : st2 = updateBuf (updateBuf st idx0
        (fun b => { b with refcnt := (b.refcnt + 1) % 2 ^ 32 })) idx0
        (fun b => { b with locked := true }) := (congrArg Prod.fst hp).symm
    refine Or.inl ⟨rfl, ?_, hst2⟩
    exact List.mem_of_find?_eq_some hf

lemma mem_getD_flatten (bks : List (List Nat)) (i j : Nat) (h : j ∈ bks.getD i []) :
    j ∈ bks.flatten := by
  by_cases hi : i < bks.length
  · have hg : bks.getD i [] = bks[i] := by
      rw [List.getD_eq_getElem?_getD, List.getElem?_eq_getElem hi]
      rfl
    rw [hg] at h
    exact List.mem_flatten.mpr ⟨bks[i], List.getElem_mem hi, h⟩
  · rw [List.getD_eq_getElem?_getD, List.getElem?_eq_none (by omega)] at h
    exact absurd h (List.not_mem_nil j)

/-- **C10**: a cache-hit `bget` and every completing `brelse`, `bpin` and
`bunpin` leave all identity fields (`dev`, `blockno`, `valid`), contents and
bucket lists unchanged, touching only the affected buffer's `refcnt`,
`lastuse` and lock state; a miss rebinds the identity fields of exactly the
one reclaimed buffer (`dev`, `blockno`, `valid := false`, `refcnt := 1`),
leaves every other buffer entirely unchanged, and changes the bucket lists
only by the relocation splice of that buffer (or not at all on the local
path). -/
theorem frame_effects
    (st : BCache) (dev blockno idx k : Nat)
    (sb : BCache) (ib tb : Nat) (sb2 : BCache) (kb : Nat)
    (sp : BCache) (ip kp : Nat)
    (sm : BCache) (dm bm : Nat) (sm2 : BCache) (im km : Nat) (evm : List Ev)
    (hidx : idx ∈ st.buckets.getD (hashN st.buckets.length blockno) [])
    (hmatch : bufMatch (bufAt st idx) dev blockno = true)
    (huniq : ∀ j ∈ st.buckets.getD (hashN st.buckets.length blockno) [],
      bufMatch (bufAt st j) dev blockno = true → j = idx)
    (hlen : idx < st.bufs.length)
    (hk : k ≠ idx)
    (hib : ib < sb.bufs.length)
    (hrelb : brelse sb ib tb = some sb2)
    (hkb : kb ≠ ib)
    (hip : ip < sp.bufs.length)
    (hkp : kp ≠ ip)
    (hmiss : ∀ j ∈ sm.buckets.getD (hashN sm.buckets.length bm) [],
      bufMatch (bufAt sm j) dm bm = false)
    (hwf : ∀ j ∈ sm.buckets.flatten, j < sm.bufs.length)
    (hbgm : bget sm dm bm = (some (sm2, im), evm))
    (hkm : km ≠ im) :
    (bgetSt st dev blockno).buckets = st.buckets ∧
    bufAt (bgetSt st dev blockno) k = bufAt st k ∧
    bufAt (bgetSt st dev blockno) idx
      = { bufAt st idx with refcnt := ((bufAt st idx).refcnt + 1) % 2 ^ 32, locked := true } ∧
    sb2.buckets = sb.buckets ∧
    bufAt sb2 kb = bufAt sb kb ∧
    (bufAt sb2 ib).dev = (bufAt sb ib).dev ∧
    (bufAt sb2 ib).blockno = (bufAt sb ib).blockno ∧
    (bufAt sb2 ib).valid = (bufAt sb ib).valid ∧
    (bufAt sb2 ib).data = (bufAt sb ib).data ∧
    (bpin sp ip).buckets = sp.buckets ∧
    bufAt (bpin sp ip) kp = bufAt sp kp ∧
    bufAt (bpin sp ip) ip
      = { bufAt sp ip with refcnt := ((bufAt sp ip).refcnt + 1) % 2 ^ 32 } ∧
    (bunpin sp ip).buckets = sp.buckets ∧
    bufAt (bunpin sp ip) kp = bufAt sp kp ∧
    bufAt (bunpin sp ip) ip
      = { bufAt sp ip with refcnt := decWrap (bufAt sp ip).refcnt } ∧
    bufAt sm2 im
      = { bufAt sm im with dev := dm, blockno := bm, valid := false, refcnt := 1, locked := true } ∧
    bufAt sm2 km = bufAt sm km ∧
    (sm2.buckets = sm.buckets ∨
      sm2.buckets = relocateBuckets sm.buckets (hashN sm.buckets.length bm) im) := by
  have hfind : findHit st.bufs (st.buckets.getD (hashN st.buckets.length blockno) [])
      dev blockno = some idx :=
    find?_eq_some_of_uniq _ _ idx hidx hmatch huniq
  have hbg := bget_hit_eq st dev blockno idx hfind
  have hgSt : bgetSt st dev blockno = updateBuf (updateBuf st idx
      (fun b => { b with refcnt := (b.refcnt + 1) % 2 ^ 32 })) idx
      (fun b => { b with locked := true }) := by
    unfold bgetSt
    rw [hbg]
    rfl
  have hlen1 : idx < (updateBuf st idx
      (fun b => { b with refcnt := (b.refcnt + 1) % 2 ^ 32 })).bufs.length := by
    rwa [updateBuf_bufs_length]
  have hlb := brelse_locked_of_some sb ib tb sb2 hrelb
  rw [brelse_some sb ib tb hib hlb] at hrelb
  have hsb : sb2 = { sb with bufs := sb.bufs.set ib (brelseBuf (bufAt sb ib) tb) } := by
    cases hrelb
    rfl
  subst hsb
  have hbib : bufAt { sb with bufs := sb.bufs.set ib (brelseBuf (bufAt sb ib) tb) } ib
      = brelseBuf (bufAt sb ib) tb :=
    getD_set_self _ _ _ (by simpa using hib)
  have hfindm : findHit sm.bufs (sm.buckets.getD (hashN sm.buckets.length bm) []) dm bm
      = none := by
    apply List.find?_eq_none.mpr
    intro x hx hpx
    have h2 : bufMatch (sm.bufs.getD x default) dm bm = false := hmiss x hx
    rw [h2] at hpx
    exact Bool.noConfusion hpx
  have hmissc :
      bufAt sm2 im
        = { bufAt sm im with dev := dm, blockno := bm, valid := false, refcnt := 1, locked := true } ∧
      bufAt sm2 km = bufAt sm km ∧
      (sm2.buckets = sm.buckets ∨
        sm2.buckets = relocateBuckets sm.buckets (hashN sm.buckets.length bm) im) := by
    rcases bget_some_cases sm dm bm sm2 im evm hbgm
      with ⟨hfhit, _, _⟩ | ⟨hmemm, hstm⟩ | ⟨⟨iw, hmemm⟩, hstm⟩
    · rw [hfindm] at hfhit
      exact Option.noConfusion hfhit
    · have hlm : im < sm.bufs.length := hwf im (mem_getD_flatten _ _ _ hmemm)
      subst hstm
      refine ⟨?_, bufAt_updateBuf_ne _ _ _ _ hkm, Or.inl rfl⟩
      rw [bufAt_updateBuf_self _ _ _ hlm]
    · have hlm : im < sm.bufs.length := hwf im (mem_getD_flatten _ _ _ hmemm)
      subst hstm
      refine ⟨?_, bufAt_updateBuf_ne _ _ _ _ hkm, Or.inr rfl⟩
      have hlm2 : im < ({ sm with buckets := relocateBuckets sm.buckets (hashN sm.buckets.length bm) im }).bufs.length := hlm
      rw [bufAt_updateBuf_self _ _ _ hlm2]
      rfl
  refine ⟨?_, ?_, ?_, rfl, getD_set_ne _ _ _ _ hkb, ?_, ?_, ?_, ?_,
    rfl, bufAt_updateBuf_ne _ _ _ _ hkp, bufAt_bpin_self sp ip hip,
    rfl, bufAt_updateBuf_ne _ _ _ _ hkp, bufAt_bunpin_self sp ip hip,
    hmissc.1, hmissc.2.1, hmissc.2.2⟩
  · rw [hgSt]
    rfl
  · rw [hgSt, bufAt_updateBuf_ne _ _ _ _ hk, bufAt_updateBuf_ne _ _ _ _ hk]
  · rw [hgSt, bufAt_updateBuf_self _ _ _ hlen1, bufAt_updateBuf_self _ _ _ hlen]
  · rw [hbib]
    rfl
  · rw [hbib]
    rfl
  · rw [hbib]
    rfl
  · rw [hbib]
    rfl

/-- A one-buffer, one-bucket cache caching block `(0, 0)` with `refcnt = 0`:
a request for block 3 misses and reassigns the buffer in place. -/
def missSt : BCache :=
  { bufs := [{ dev := 0, blockno := 0, valid := true, refcnt := 0, lastuse := 5,
               locked := false, data := 3 }],
    buckets := [[0]] }

/-- The state `bget missSt 0 3` produces. -/
def missStOut : BCache :=
  { bufs := [{ dev := 0, blockno := 3, valid := false, refcnt := 1, lastuse := 5,
               locked := true, data := 3 }],
    buckets := [[0]] }

/-- Witness for `frame_effects`: a concrete hit on `hitSt`, release of
`lockedSt`, pin/unpin of `unpinSt` and the miss `bget missSt 0 3`. -/
theorem frame_effects_witness :
    (0 ∈ hitSt.buckets.getD (hashN hitSt.buckets.length 5) [] ∧
     bufMatch (bufAt hitSt 0) 1 5 = true ∧
     (∀ j ∈ hitSt.buckets.getD (hashN hitSt.buckets.length 5) [],
       bufMatch (bufAt hitSt j) 1 5 = true → j = 0) ∧
     0 < hitSt.bufs.length ∧ (1 : Nat) ≠ 0 ∧
     0 < lockedSt.bufs.length ∧ brelse lockedSt 0 42 = some lockedStReleased ∧
     0 < unpinSt.bufs.length ∧
     (∀ j ∈ missSt.buckets.getD (hashN missSt.buckets.length 3) [],
       bufMatch (bufAt missSt j) 0 3 = false) ∧
     (∀ j ∈ missSt.buckets.flatten, j < missSt.bufs.length) ∧
     bget missSt 0 3 = (some (missStOut, 0), [Ev.acq 0, Ev.rel 0, Ev.sleepAcq 0])) ∧
    ((bgetSt hitSt 1 5).buckets = hitSt.buckets ∧
     bufAt (bgetSt hitSt 1 5) 1 = bufAt hitSt 1 ∧
     bufAt (bgetSt hitSt 1 5) 0
       = { bufAt hitSt 0 with refcnt := ((bufAt hitSt 0).refcnt + 1) % 2 ^ 32, locked := true } ∧
     lockedStReleased.buckets = lockedSt.buckets ∧
     bufAt lockedStReleased 1 = bufAt lockedSt 1 ∧
     (bufAt lockedStReleased 0).dev = (bufAt lockedSt 0).dev ∧
     (bufAt lockedStReleased 0).blockno = (bufAt lockedSt 0).blockno ∧
     (bufAt lockedStReleased 0).valid = (bufAt lockedSt 0).valid ∧
     (bufAt lockedStReleased 0).data = (bufAt lockedSt 0).data ∧
     (bpin unpinSt 0).buckets = unpinSt.buckets ∧
     bufAt (bpin unpinSt 0) 1 = bufAt unpinSt 1 ∧
     bufAt (bpin unpinSt 0) 0
       = { bufAt unpinSt 0 with refcnt := ((bufAt unpinSt 0).refcnt + 1) % 2 ^ 32 } ∧
     (bunpin unpinSt 0).buckets = unpinSt.buckets ∧
     bufAt (bunpin unpinSt 0) 1 = bufAt unpinSt 1 ∧
     bufAt (bunpin unpinSt 0) 0
       = { bufAt unpinSt 0 with refcnt := decWrap (bufAt unpinSt 0).refcnt } ∧
     bufAt missStOut 0
       = { bufAt missSt 0 with dev := 0, blockno := 3, valid := false, refcnt := 1, locked := true } ∧
     bufAt missStOut 1 = bufAt missSt 1 ∧
     (missStOut.buckets = missSt.buckets ∨
       missStOut.buckets = relocateBuckets missSt.buckets (hashN missSt.buckets.length 3) 0)) :=
  ⟨⟨by decide, by decide, by decide, by decide, by decide, by decide, by decide,
    by decide, by decide, by decide, by decide⟩,
   frame_effects hitSt 1 5 0 1 lockedSt 0 42 lockedStReleased 1 unpinSt 0 1
     missSt 0 3 missStOut 0 1 [Ev.acq 0, Ev.rel 0, Ev.sleepAcq 0]
     (by decide) (by decide) (by decide) (by decide) (by decide) (by decide)
     (by decide) (by decide) (by decide) (by decide) (by decide) (by decide)
     (by decide) (by decide)⟩

/-! ### The exactly-one-bucket-list invariant -/

lemma map_nil_of_forall (f : Nat → List Nat) :
    ∀ (l : List Nat), (∀ x ∈ l, f x = []) → l.map f = List.replicate l.length [] := by
  intro l
  induction l with
  | nil => intro _; rfl
  | cons a t ih =>
    intro h
    rw [List.map_cons, h a (List.mem_cons_self a t),
        ih (fun x hx => h x (List.mem_cons_of_mem a hx)), List.length_cons,
        List.replicate_succ]

lemma binit_buckets (n b : Nat) (hb : 0 < b) :
    (binit n b).buckets
      = (List.range n).reverse :: List.replicate (b - 1) ([] : List Nat) := by
  obtain ⟨c, rfl⟩ : ∃ c, b = c + 1 := ⟨b - 1, by omega⟩
  simp only [binit, Nat.add_sub_cancel]
  have h2 : (List.range c).map
        ((fun i => if i = 0 then (List.range n).reverse else ([] : List Nat)) ∘ Nat.succ)
      = List.replicate c ([] : List Nat) := by
    rw [map_nil_of_forall _ (List.range c) (fun x _ => by simp [Function.comp]),
        List.length_range]
  rw [List.range_succ_eq_map, List.map_cons, List.map_map, if_pos rfl, h2]

lemma binit_bufs_length (n b : Nat) : (binit n b).bufs.length = n := by
  simp [binit]

lemma count_range (n j : Nat) : (List.range n).count j = if j < n then 1 else 0 := by
  by_cases h : j < n
  · rw [if_pos h]
    exact List.count_eq_one_of_mem (List.nodup_range n) (List.mem_range.mpr h)
  · rw [if_neg h]
    exact List.count_eq_zero_of_not_mem (fun hm => h (List.mem_range.mp hm))

lemma partitionInv_binit (n b : Nat) (hb : 0 < b) : partitionInv (binit n b) := by
  intro j
  unfold bucketCount
  rw [binit_buckets n b hb, binit_bufs_length, List.map_cons, List.sum_cons,
      List.map_replicate, List.count_reverse, count_range]
  simp

lemma getD_replicate_nil : ∀ (m i : Nat), (List.replicate m ([] : List Nat)).getD i [] = []
  | 0, _ => rfl
  | _ + 1, 0 => rfl
  | m + 1, i + 1 => getD_replicate_nil m i

lemma sumCount_erase_ne (bks : List (List Nat)) (idx j : Nat) (hne : j ≠ idx) :
    ((bks.map (fun l => l.erase idx)).map (fun l => l.count j)).sum
      = (bks.map (fun l => l.count j)).sum := by
  induction bks with
  | nil => rfl
  | cons l t ih =>
    rw [List.map_cons, List.map_cons, List.sum_cons, List.map_cons, List.sum_cons,
        List.count_erase_of_ne hne, ih]

lemma sumCount_zero_all (bks : List (List Nat)) (idx : Nat)
    (h : (bks.map (fun l => l.count idx)).sum = 0) :
    ((bks.map (fun l => l.erase idx)).map (fun l => l.count idx)).sum = 0 := by
  induction bks with
  | nil => rfl
  | cons l t ih =>
    rw [List.map_cons, List.sum_cons] at h
    have h1 : l.count idx = 0 := by omega
    have h2 : (t.map (fun l => l.count idx)).sum = 0 := by omega
    rw [List.map_cons, List.map_cons, List.sum_cons, List.count_erase_self, h1, ih h2]

lemma sumCount_erase_one (bks : List (List Nat)) (idx : Nat)
    (h : (bks.map (fun l => l.count idx)).sum = 1) :
    ((bks.map (fun l => l.erase idx)).map (fun l => l.count idx)).sum = 0 := by
  induction bks with
  | nil => exact absurd h (by simp)
  | cons l t ih =>
    rw [List.map_cons, List.sum_cons] at h
    rw [List.map_cons, List.map_cons, List.sum_cons, List.count_erase_self]
    by_cases hc : l.count idx = 0
    · have h2 : (t.map (fun l2 => l2.count idx)).sum = 1 := by omega
      rw [hc, ih h2]
    · have h1 : l.count idx = 1 := by omega
      rw [h1, sumCount_zero_all t idx (by omega)]

lemma sumCount_set_cons (bks : List (List Nat)) :
    ∀ (k : Nat), k < bks.length → ∀ (x j : Nat),
      ((bks.set k (x :: bks.getD k [])).map (fun l => l.count j)).sum
        = (if j = x then 1 else 0) + (bks.map (fun l => l.count j)).sum := by
  induction bks with
  | nil => intro k hk; exact absurd hk (Nat.not_lt_zero k)
  | cons l t ih =>
    intro k hk x j
    cases k with
    | zero =>
      rw [show (l :: t).set 0 (x :: (l :: t).getD 0 []) = (x :: l) :: t from rfl]
      rw [List.map_cons, List.sum_cons, List.map_cons, List.sum_cons]
      have hcc : (x :: l).count j = l.count j + (if j = x then 1 else 0) := by
        by_cases hjx : j = x
        · subst hjx
          simp [List.count_cons]
        · simp [List.count_cons, hjx, Ne.symm hjx]
      rw [hcc]
      by_cases hjx : j = x
      · rw [if_pos hjx]
        omega
      · rw [if_neg hjx]
        omega
    | succ k2 =>
      rw [show (l :: t).set (k2 + 1) (x :: (l :: t).getD (k2 + 1) [])
            = l :: t.set k2 (x :: t.getD k2 []) from rfl]
      rw [List.map_cons, List.sum_cons, List.map_cons, List.sum_cons,
          ih k2 (by simpa using hk) x j]
      omega

lemma le_bucketCount_of_mem (st : BCache) (i j : Nat) (h : j ∈ st.buckets.getD i []) :
    1 ≤ bucketCount st j := by
  by_cases hi : i < st.buckets.length
  · have hg : st.buckets.getD i [] = st.buckets[i] := by
      rw [List.getD_eq_getElem?_getD, List.getElem?_eq_getElem hi]
      rfl
    rw [hg] at h
    have h1 : 0 < st.buckets[i].count j := List.count_pos_iff_mem.mpr h
    have h2 : st.buckets[i].count j ∈ st.buckets.map (fun l => l.count j) :=
      List.mem_map_of_mem _ (List.getElem_mem hi)
    have h3 := List.single_le_sum (fun (x : Nat) _ => Nat.zero_le x) _ h2
    unfold bucketCount
    omega
  · rw [List.getD_eq_getElem?_getD, List.getElem?_eq_none (by omega)] at h
    exact absurd h (List.not_mem_nil j)

lemma hashN_lt (B blockno : Nat) (hB : 0 < B) : hashN B blockno < B := by
  unfold hashN hash cMod
  by_cases h : 0 ≤ toInt32 blockno
  · rw [if_pos h]
    have hBpos : (0 : Int) < (B : Int) := by exact_mod_cast hB
    have h1 : toInt32 blockno % (B : Int) < (B : Int) := Int.emod_lt_of_pos _ hBpos
    have h2 : 0 ≤ toInt32 blockno % (B : Int) := Int.emod_nonneg _ (by omega)
    omega
  · rw [if_neg h]
    have h2 : 0 ≤ (-(toInt32 blockno)) % (B : Int) :=
      Int.emod_nonneg _ (by exact_mod_cast Nat.pos_iff_ne_zero.mp hB)
    omega

lemma partitionInv_congr (st st2 : BCache) (hb : st2.buckets = st.buckets)
    (hl : st2.bufs.length = st.bufs.length) (h : partitionInv st) : partitionInv st2 := by
  intro j
  unfold bucketCount
  rw [hb, hl]
  exact h j

lemma partitionInv_relocate (st : BCache) (home idx : Nat)
    (hhome : home < st.buckets.length)
    (hinv : partitionInv st) (iw : Nat) (hmem : idx ∈ st.buckets.getD iw [])
    (st2 : BCache)
    (hbks : st2.buckets = relocateBuckets st.buckets home idx)
    (hlen : st2.bufs.length = st.bufs.length) : partitionInv st2 := by
  have hidxlt : idx < st.bufs.length := by
    by_contra hge
    have h0 : bucketCount st idx = 0 := by
      rw [hinv idx, if_neg hge]
    have h1 := le_bucketCount_of_mem st iw idx hmem
    omega
  intro j
  unfold bucketCount
  rw [hbks, hlen]
  simp only [relocateBuckets]
  have hhome2 : home < (st.buckets.map (fun l => l.erase idx)).length := by
    rwa [List.length_map]
  rw [sumCount_set_cons _ home hhome2 idx j]
  by_cases hj : j = idx
  · subst hj
    rw [if_pos rfl]
    have hs1 : (st.buckets.map (fun l => l.count j)).sum = 1 := by
      have hq := hinv j
      unfold bucketCount at hq
      rwa [if_pos hidxlt] at hq
    rw [sumCount_erase_one st.buckets j hs1, if_pos hidxlt]
  · rw [if_neg hj, sumCount_erase_ne st.buckets idx j hj]
    have hq := hinv j
    unfold bucketCount at hq
    rw [hq]
    simp

/-- **C7**: every buffer belongs to exactly one bucket list at all times:
`binit` puts all `n` buffers on bucket 0's list (every other bucket list is
empty) and establishes the partition invariant; a successful `bget` preserves
it and mutates the lists only by the relocation splice of its reclamation
candidate (or not at all); `brelse`, `bpin` and `bunpin` preserve it and
never touch any list. -/
theorem bucket_partition
    (n b i0 : Nat)
    (st : BCache) (dev blockno : Nat) (st2 : BCache) (idx : Nat) (evs : List Ev)
    (sb : BCache) (ib tb : Nat) (sb2 : BCache)
    (sp : BCache) (ip : Nat)
    (hb : 0 < b) (hi0 : i0 ≠ 0)
    (hinv : partitionInv st)
    (hbg : bget st dev blockno = (some (st2, idx), evs))
    (hinvb : partitionInv sb)
    (hibl : ib < sb.bufs.length)
    (hrelb : brelse sb ib tb = some sb2)
    (hinvp : partitionInv sp) :
    partitionInv (binit n b) ∧
    (binit n b).buckets.getD 0 [] = (List.range n).reverse ∧
    (binit n b).buckets.getD i0 [] = [] ∧
    partitionInv st2 ∧
    (st2.buckets = st.buckets ∨
      st2.buckets = relocateBuckets st.buckets (hashN st.buckets.length blockno) idx) ∧
    partitionInv sb2 ∧ sb2.buckets = sb.buckets ∧
    partitionInv (bpin sp ip) ∧ (bpin sp ip).buckets = sp.buckets ∧
    partitionInv (bunpin sp ip) ∧ (bunpin sp ip).buckets = sp.buckets := by
  have hbinit0 : (binit n b).buckets.getD 0 [] = (List.range n).reverse := by
    rw [binit_buckets n b hb]
    rfl
  have hbiniti : (binit n b).buckets.getD i0 [] = [] := by
    rw [binit_buckets n b hb]
    obtain ⟨i1, rfl⟩ : ∃ i1, i0 = i1 + 1 := ⟨i0 - 1, by omega⟩
    show (List.replicate (b - 1) ([] : List Nat)).getD i1 [] = []
    exact getD_replicate_nil (b - 1) i1
  have hbgetc : partitionInv st2 ∧
      (st2.buckets = st.buckets ∨
        st2.buckets = relocateBuckets st.buckets (hashN st.buckets.length blockno) idx) := by
    rcases bget_some_cases st dev blockno st2 idx evs hbg
      with ⟨_, hmem, hst⟩ | ⟨hmem, hst⟩ | ⟨⟨iw, hmem⟩, hst⟩
    · subst hst
      refine ⟨partitionInv_congr st _ rfl ?_ hinv, Or.inl rfl⟩
      rw [updateBuf_bufs_length, updateBuf_bufs_length]
    · subst hst
      refine ⟨partitionInv_congr st _ rfl ?_ hinv, Or.inl rfl⟩
      rw [updateBuf_bufs_length]
    · have hpos : 0 < st.buckets.length := by
        by_contra h0
        have he : st.buckets.getD iw [] = [] := by
          rw [List.getD_eq_getElem?_getD, List.getElem?_eq_none (by omega)]
          rfl
        rw [he] at hmem
        exact absurd hmem (List.not_mem_nil idx)
      subst hst
      refine ⟨?_, Or.inr rfl⟩
      exact partitionInv_relocate st (hashN st.buckets.length blockno) idx
        (hashN_lt _ blockno hpos) hinv iw hmem _ rfl (by simp [updateBuf])
  have hlb := brelse_locked_of_some sb ib tb sb2 hrelb
  rw [brelse_some sb ib tb hibl hlb] at hrelb
  have hsb : sb2 = { sb with bufs := sb.bufs.set ib (brelseBuf (bufAt sb ib) tb) } := by
    cases hrelb
    rfl
  subst hsb
  refine ⟨partitionInv_binit n b hb, hbinit0, hbiniti, hbgetc.1, hbgetc.2,
    partitionInv_congr sb _ rfl (by simp) hinvb, rfl,
    partitionInv_congr sp _ rfl (by simp [bpin, updateBuf]) hinvp, rfl,
    partitionInv_congr sp _ rfl (by simp [bunpin, updateBuf]) hinvp, rfl⟩

/-- The partition invariant for any single-buffer, single-bucket cache whose
bucket list is exactly `[0]`. -/
lemma partitionInv_single (st : BCache) (b0 : Buf)
    (hbufs : st.bufs = [b0]) (hbks : st.buckets = [[0]]) : partitionInv st := by
  intro j
  unfold bucketCount
  rw [hbks, hbufs]
  rcases j with _ | j
  · simp
  · simp

/-- Witness for `bucket_partition`: `binit 3 2`, the miss `bget missSt 0 3`,
the release of `lockedSt` and pin/unpin on `unpinSt`. -/
theorem bucket_partition_witness :
    (0 < 2 ∧ (1 : Nat) ≠ 0 ∧ partitionInv missSt ∧
     bget missSt 0 3 = (some (missStOut, 0), [Ev.acq 0, Ev.rel 0, Ev.sleepAcq 0]) ∧
     partitionInv lockedSt ∧ 0 < lockedSt.bufs.length ∧
     brelse lockedSt 0 42 = some lockedStReleased ∧ partitionInv unpinSt) ∧
    (partitionInv (binit 3 2) ∧
     (binit 3 2).buckets.getD 0 [] = (List.range 3).reverse ∧
     (binit 3 2).buckets.getD 1 [] = [] ∧
     partitionInv missStOut ∧
     (missStOut.buckets = missSt.buckets ∨
       missStOut.buckets = relocateBuckets missSt.buckets (hashN missSt.buckets.length 3) 0) ∧
     partitionInv lockedStReleased ∧ lockedStReleased.buckets = lockedSt.buckets ∧
     partitionInv (bpin unpinSt 0) ∧ (bpin unpinSt 0).buckets = unpinSt.buckets ∧
     partitionInv (bunpin unpinSt 0) ∧ (bunpin unpinSt 0).buckets = unpinSt.buckets) :=
  ⟨⟨by decide, by decide, partitionInv_single missSt _ rfl rfl, by decide,
    partitionInv_single lockedSt _ rfl rfl, by decide, by decide,
    partitionInv_single unpinSt _ rfl rfl⟩,
   bucket_partition 3 2 1 missSt 0 3 missStOut 0 [Ev.acq 0, Ev.rel 0, Ev.sleepAcq 0]
     lockedSt 0 42 lockedStReleased unpinSt 0
     (by decide) (by decide) (partitionInv_single missSt _ rfl rfl) (by decide)
     (partitionInv_single lockedSt _ rfl rfl) (by decide) (by decide)
     (partitionInv_single unpinSt _ rfl rfl)⟩

/-! ### Lock discipline of bget -/

lemma runHeld_append (a : List Ev) :
    ∀ (held : List Nat) (b : List Ev),
      runHeld held (a ++ b) = (runHeld held a).bind (fun h => runHeld h b) := by
  induction a with
  | nil => intro held b; rfl
  | cons e rest ih =>
    intro held b
    cases e with
    | acq i =>
      rw [List.cons_append]
      by_cases hc : i ∈ held ∨ 2 ≤ held.length
      · simp only [runHeld, if_pos hc]
        rfl
      · simp only [runHeld, if_neg hc]
        exact ih (i :: held) b
    | rel i =>
      rw [List.cons_append]
      by_cases hc : i ∈ held
      · simp only [runHeld, if_pos hc]
        exact ih (held.erase i) b
      · simp only [runHeld, if_neg hc]
        rfl
    | sleepAcq i =>
      rw [List.cons_append]
      by_cases hc : held = []
      · simp only [runHeld, if_pos hc]
        exact ih held b
      · simp only [runHeld, if_neg hc]
        rfl

lemma runHeld_simple (x i : Nat) :
    runHeld [] [Ev.acq x, Ev.rel x, Ev.sleepAcq i] = some [] := by
  simp [runHeld]

lemma runHeld_pair_nil (x : Nat) : runHeld [] [Ev.acq x, Ev.rel x] = some [] := by
  simp [runHeld]

lemma runHeld_pair_one (x y : Nat) (h : x ≠ y) :
    runHeld [y] [Ev.acq x, Ev.rel x] = some [y] := by
  simp [runHeld, h]

lemma runHeld_acq_nil (x : Nat) : runHeld [] [Ev.acq x] = some [x] := by
  simp [runHeld]

lemma runHeld_acq_relother (x y : Nat) (h : x ≠ y) :
    runHeld [y] [Ev.acq x, Ev.rel y] = some [x] := by
  simp [runHeld, h]

lemma runHeld_acqrelrel (x y : Nat) (h : x ≠ y) :
    runHeld [y] [Ev.acq x, Ev.rel x, Ev.rel y] = some [] := by
  simp [runHeld, h]

lemma runHeld_evict_tail (x y i : Nat) (h : x ≠ y) :
    runHeld [y] [Ev.acq x, Ev.rel x, Ev.rel y, Ev.sleepAcq i] = some [] := by
  simp [runHeld, h]

lemma evictLoop_lock (st : BCache) (lockid : Nat) :
    ∀ (l : List Nat), l.Nodup →
    ∀ (cozy : Option Nat) (mt bktid : Nat) (evs : List Ev),
      (bktid = lockid ∨ bktid ∉ l) →
      (bktid = lockid → cozy = none) →
      runHeld [] evs = some (if bktid = lockid then [] else [bktid]) →
      ∀ (cz2 : Option Nat) (m2 bk2 : Nat) (evs2 : List Ev),
        evictLoop st lockid l (cozy, mt, bktid, evs) = (cz2, m2, bk2, evs2) →
        (bk2 = lockid → cz2 = none) ∧
        runHeld [] evs2 = some (if bk2 = lockid then [] else [bk2]) := by
  intro l
  induction l with
  | nil =>
    intro _ cozy mt bktid evs hmem hcz hrun cz2 m2 bk2 evs2 hev
    rw [evictLoop_nil] at hev
    cases hev
    exact ⟨hcz, hrun⟩
  | cons i rest ih =>
    intro hnd cozy mt bktid evs hmem hcz hrun cz2 m2 bk2 evs2 hev
    have hnd2 : rest.Nodup := (List.nodup_cons.mp hnd).2
    have hnotmem : i ∉ rest := (List.nodup_cons.mp hnd).1
    by_cases hil : i = lockid
    · subst hil
      rw [evictLoop_cons_skip] at hev
      refine ih hnd2 cozy mt bktid evs ?_ hcz hrun cz2 m2 bk2 evs2 hev
      rcases hmem with h | h
      · exact Or.inl h
      · exact Or.inr (fun hm => h (List.mem_cons_of_mem _ hm))
    · rcases hscan : scanBucket st.bufs ((st.buckets.getD i []).reverse) cozy mt
        with ⟨cz3, mt3, ch⟩
      cases ch
      · rw [evictLoop_cons_unchanged st lockid i rest cozy mt bktid evs hil cz3 mt3 hscan]
          at hev
        obtain ⟨hcz3, hmt3⟩ := scanBucket_stuck _ _ _ _ _ _ hscan
        rw [hcz3, hmt3] at hev
        refine ih hnd2 cozy mt bktid _ ?_ hcz ?_ cz2 m2 bk2 evs2 hev
        · rcases hmem with h | h
          · exact Or.inl h
          · exact Or.inr (fun hm => h (List.mem_cons_of_mem _ hm))
        · rw [runHeld_append, hrun]
          by_cases hbl : bktid = lockid
          · simp only [if_pos hbl]
            show runHeld [] [Ev.acq i, Ev.rel i] = some []
            exact runHeld_pair_nil i
          · simp only [if_neg hbl]
            show runHeld [bktid] [Ev.acq i, Ev.rel i] = some [bktid]
            have hib : i ≠ bktid := by
              rcases hmem with h | h
              · exact absurd h hbl
              · exact fun he => h (he ▸ List.mem_cons_self i rest)
            exact runHeld_pair_one i bktid hib
      · rw [evictLoop_cons_changed st lockid i rest cozy mt bktid evs hil cz3 mt3 hscan]
          at hev
        refine ih hnd2 cz3 mt3 i _ (Or.inr hnotmem) (fun h => absurd h hil) ?_
          cz2 m2 bk2 evs2 hev
        rw [List.append_assoc, runHeld_append, hrun]
        by_cases hbl : bktid = lockid
        · simp only [if_pos hbl]
          show runHeld [] ([Ev.acq i] ++ []) = some (if i = lockid then [] else [i])
          rw [List.append_nil, if_neg hil]
          exact runHeld_acq_nil i
        · simp only [if_neg hbl]
          show runHeld [bktid] ([Ev.acq i] ++ [Ev.rel bktid])
            = some (if i = lockid then [] else [i])
          have hib : i ≠ bktid := by
            rcases hmem with h | h
            · exact absurd h hbl
            · exact fun he => h (he ▸ List.mem_cons_self i rest)
          rw [if_neg hil]
          exact runHeld_acq_relother i bktid hib

/-- C4: Lock discipline of `bget`: along every execution path, at most two
bucket locks are held at any instant, a bucket lock is released only while
held, and no bucket lock is held at the point `acquiresleep` is called on
the returned buffer. -/
theorem bget_lock_discipline (st : BCache) (dev blockno : Nat) :
    lockOk (bget st dev blockno).2 = true := by
  rcases hf : findHit st.bufs (st.buckets.getD (hashN st.buckets.length blockno) [])
      dev blockno with _ | idx
  · rcases hscan : scanBucket st.bufs
        ((st.buckets.getD (hashN st.buckets.length blockno) []).reverse) none maxtickInit
      with ⟨cz, mtv, ch⟩
    rcases cz with _ | idx
    · rcases hev : evictLoop st (hashN st.buckets.length blockno)
          (List.range st.buckets.length)
          (none, mtv, hashN st.buckets.length blockno,
           [Ev.acq (hashN st.buckets.length blockno),
            Ev.rel (hashN st.buckets.length blockno)])
        with ⟨cz2, m2, bk2, evs2⟩
      have hstart : runHeld []
          [Ev.acq (hashN st.buckets.length blockno),
           Ev.rel (hashN st.buckets.length blockno)]
          = some (if hashN st.buckets.length blockno = hashN st.buckets.length blockno
                  then [] else [hashN st.buckets.length blockno]) := by
        rw [if_pos rfl]
        exact runHeld_pair_nil _
      obtain ⟨hbc, hrun2⟩ := evictLoop_lock st (hashN st.buckets.length blockno)
        (List.range st.buckets.length) (List.nodup_range _) none mtv
        (hashN st.buckets.length blockno) _ (Or.inl rfl) (fun _ => rfl) hstart
        cz2 m2 bk2 evs2 hev
      rcases cz2 with _ | idx2
      · have htr : (bget st dev blockno).2
            = evs2 ++ [Ev.acq (hashN st.buckets.length blockno),
                       Ev.rel (hashN st.buckets.length blockno)]
                   ++ (if bk2 = hashN st.buckets.length blockno then []
                       else [Ev.rel bk2]) :=
          congrArg Prod.snd (bget_evict_none_eq st dev blockno mtv ch m2 bk2 evs2 hf hscan hev)
        unfold lockOk
        rw [htr, List.append_assoc, runHeld_append, hrun2]
        by_cases hb : bk2 = hashN st.buckets.length blockno
        · simp only [if_pos hb]
          show (runHeld []
            ([Ev.acq (hashN st.buckets.length blockno),
              Ev.rel (hashN st.buckets.length blockno)] ++ [])).isSome = true
          rw [List.append_nil, runHeld_pair_nil]
          rfl
        · simp only [if_neg hb]
          show (runHeld [bk2]
            [Ev.acq (hashN st.buckets.length blockno),
             Ev.rel (hashN st.buckets.length blockno), Ev.rel bk2]).isSome = true
          rw [runHeld_acqrelrel _ bk2 (fun he => hb he.symm)]
          rfl
      · have hbk : bk2 ≠ hashN st.buckets.length blockno := by
          intro h
          exact Option.noConfusion (hbc h)
        have htr : (bget st dev blockno).2
            = evs2 ++ [Ev.acq (hashN st.buckets.length blockno),
                       Ev.rel (hashN st.buckets.length blockno), Ev.rel bk2,
                       Ev.sleepAcq idx2] :=
          congrArg Prod.snd
            (bget_evict_some_eq st dev blockno mtv ch idx2 m2 bk2 evs2 hf hscan hev)
        unfold lockOk
        rw [htr, runHeld_append, hrun2]
        simp only [if_neg hbk]
        show (runHeld [bk2]
          [Ev.acq (hashN st.buckets.length blockno),
           Ev.rel (hashN st.buckets.length blockno), Ev.rel bk2,
           Ev.sleepAcq idx2]).isSome = true
        rw [runHeld_evict_tail _ bk2 idx2 (fun he => hbk he.symm)]
        rfl
    · have htr : (bget st dev blockno).2
          = [Ev.acq (hashN st.buckets.length blockno),
             Ev.rel (hashN st.buckets.length blockno), Ev.sleepAcq idx] :=
        congrArg Prod.snd (bget_local_eq st dev blockno idx mtv ch hf hscan)
      unfold lockOk
      rw [htr, runHeld_simple]
      rfl
  · have htr : (bget st dev blockno).2
        = [Ev.acq (hashN st.buckets.length blockno),
           Ev.rel (hashN st.buckets.length blockno), Ev.sleepAcq idx] :=
      congrArg Prod.snd (bget_hit_eq st dev blockno idx hf)
    unfold lockOk
    rw [htr, runHeld_simple]
    rfl

end Bio
